import Mathlib

/-!
Verification of the `git-stub` repository: a shallow embedding of the
`git-stub` and `git-stub-vcs` crates (commit-hash parsing, stub
parsing/serialization, VCS detection, and the materialization pipeline),
together with theorems settling the specification claims.

Strings are modelled as `List Char`; byte lengths (Rust `str::len`) are
computed from UTF-8 character sizes where the source measures bytes.
-/

set_option autoImplicit false

deriving instance DecidableEq for Except

namespace GitStubSpec

/-- Rust `str::len`: the UTF-8 byte length of a string. -/
def strByteLen (s : List Char) : Nat := (s.map Char.utf8Size).sum

/-- The value of a hex-digit byte per the `hex` crate's decoding table
(`b'0'..=b'9'`, `b'a'..=b'f'`, `b'A'..=b'F'`); `none` for non-hex. -/
def hexVal (c : Char) : Option Nat :=
  if 48 ≤ c.toNat ∧ c.toNat ≤ 57 then some (c.toNat - 48)
  else if 97 ≤ c.toNat ∧ c.toNat ≤ 102 then some (c.toNat - 87)
  else if 65 ≤ c.toNat ∧ c.toNat ≤ 70 then some (c.toNat - 55)
  else none

/-- Whether a character is an ASCII hex digit (decodable by the `hex` crate). -/
def isHexChar (c : Char) : Bool := (hexVal c).isSome

/-- `hex::decode_to_slice`: decode consecutive pairs of hex digits into
bytes. Only meaningful when every character is a hex digit and the length
is even; both are checked by the caller. -/
def pairDecode : List Char → List Nat
  | c₁ :: c₂ :: rest => (((hexVal c₁).getD 0) * 16 + ((hexVal c₂).getD 0)) :: pairDecode rest
  | _ => []

/-- `CommitHashParseError` from `crates/git-stub/src/errors.rs`. -/
inductive CommitHashParseError where
  | invalidLength (n : Nat)
  | invalidHex
  deriving DecidableEq, Repr

/-- `GitCommitHash` from `crates/git-stub/src/hash.rs`: a 20-byte SHA-1 or
32-byte SHA-256 digest. Bytes are `Nat`s below 256. -/
inductive GitCommitHash where
  | sha1 (bytes : List Nat)
  | sha256 (bytes : List Nat)
  deriving DecidableEq, Repr

/-- The raw bytes of a commit hash. -/
def GitCommitHash.bytes : GitCommitHash → List Nat
  | .sha1 bs => bs
  | .sha256 bs => bs

/-- Well-formedness of the modelled hash: the fixed width the Rust arrays
`[u8; 20]` / `[u8; 32]` guarantee, and bytes below 256. -/
def wfCommitHash : GitCommitHash → Prop
  | .sha1 bs => bs.length = 20 ∧ ∀ b ∈ bs, b < 256
  | .sha256 bs => bs.length = 32 ∧ ∀ b ∈ bs, b < 256

/-- `GitCommitHash::from_str`: match on byte length (40 ⇒ SHA-1,
64 ⇒ SHA-256, anything else ⇒ `InvalidLength`), then hex-decode; a non-hex
byte in a length-matched string is `InvalidHex`. -/
def commitHashFromStr (s : List Char) : Except CommitHashParseError GitCommitHash :=
  if strByteLen s = 40 then
    if s.all isHexChar then .ok (.sha1 (pairDecode s)) else .error .invalidHex
  else if strByteLen s = 64 then
    if s.all isHexChar then .ok (.sha256 (pairDecode s)) else .error .invalidHex
  else .error (.invalidLength (strByteLen s))

/-- The lowercase hex digit for a value below 16, as emitted by
`hex::encode`. -/
def hexDigitChar (n : Nat) : Char := Char.ofNat (if n < 10 then 48 + n else 87 + n)

/-- One byte rendered as two lowercase hex digits. -/
def byteToHex (b : Nat) : List Char := [hexDigitChar (b / 16), hexDigitChar (b % 16)]

/-- `hex::encode` over a byte slice. -/
def displayBytes : List Nat → List Char
  | [] => []
  | b :: bs => byteToHex b ++ displayBytes bs

/-- `Display for GitCommitHash`: lowercase hex encoding of the bytes. -/
def commitHashDisplay (h : GitCommitHash) : List Char := displayBytes h.bytes

/-! ## Path model

`camino::Utf8Path` delegates to `std::path` component parsing. On Unix a
component is `RootDir` (leading `/`), `CurDir` (`.`, kept only as a leading
component), `ParentDir` (`..`, anywhere), or `Normal`; empty segments and
non-leading `.` segments are normalized away. `Prefix` components never
occur on Unix.
-/

/-- A `std::path::Component` as it occurs on Unix. -/
inductive PathComponent where
  | rootDir
  | curDir
  | parentDir
  | normal (name : List Char)
  deriving DecidableEq, Repr

/-- `Component::as_str`. -/
def PathComponent.asStr : PathComponent → List Char
  | .rootDir => ['/']
  | .curDir => ['.']
  | .parentDir => ['.', '.']
  | .normal n => n

/-- Whether a component is `Normal`. -/
def PathComponent.isNormal : PathComponent → Bool
  | .normal _ => true
  | _ => false

/-- Split a string at every `/`, keeping empty segments. -/
def splitSlash : List Char → List (List Char)
  | [] => [[]]
  | c :: rest =>
    if c = '/' then [] :: splitSlash rest
    else
      match splitSlash rest with
      | [] => [[c]]
      | s :: ss => (c :: s) :: ss

/-- A segment that component iteration skips: empty, or a non-leading `.`. -/
def isSkippableSeg (seg : List Char) : Bool := seg = [] || seg = ['.']

/-- A non-`/` segment as a component: `..` is `ParentDir`, all else `Normal`. -/
def segToComponent (seg : List Char) : PathComponent :=
  if seg = ['.', '.'] then .parentDir else .normal seg

/-- `Utf8Path::components()` on Unix (as a list): leading `/` yields
`RootDir`; a leading `.` segment yields `CurDir`; empty and non-leading `.`
segments are dropped; `..` yields `ParentDir`. -/
def pathComponents (p : List Char) : List PathComponent :=
  if p.head? = some '/' then
    .rootDir :: ((splitSlash p).filter (fun s => !isSkippableSeg s)).map segToComponent
  else
    match splitSlash p with
    | [] => []
    | first :: rest =>
      let tailComps := (rest.filter (fun s => !isSkippableSeg s)).map segToComponent
      if first = [] then tailComps
      else if first = ['.'] then .curDir :: tailComps
      else segToComponent first :: tailComps

/-- `find_non_normal_component` from `crates/git-stub/src/git_stub.rs`:
the `as_str` of the first component that is not `Normal`. -/
def findNonNormalComponent (p : List Char) : Option (List Char) :=
  ((pathComponents p).find? (fun c => !c.isNormal)).map PathComponent.asStr

/-- `Utf8PathBuf` equality: paths compare equal iff their component lists
are equal. -/
def pathEq (p q : List Char) : Bool := pathComponents p = pathComponents q

/-! ## Whitespace and string helpers (Rust `str` methods) -/

/-- Rust `char::is_whitespace`: the Unicode `White_Space` code points. -/
def rustIsWhitespace (c : Char) : Bool :=
  c.toNat ∈ [0x09, 0x0A, 0x0B, 0x0C, 0x0D, 0x20, 0x85, 0xA0, 0x1680,
    0x2000, 0x2001, 0x2002, 0x2003, 0x2004, 0x2005, 0x2006, 0x2007,
    0x2008, 0x2009, 0x200A, 0x2028, 0x2029, 0x202F, 0x205F, 0x3000]

/-- Rust `str::trim`: drop Unicode whitespace from both ends. -/
def rustTrim (s : List Char) : List Char :=
  ((s.dropWhile rustIsWhitespace).reverse.dropWhile rustIsWhitespace).reverse

/-- Rust `str::split_once(':')`: split at the first colon. -/
def splitOnceColon : List Char → Option (List Char × List Char)
  | [] => none
  | c :: rest =>
    if c = ':' then some ([], rest)
    else (splitOnceColon rest).map (fun ab => (c :: ab.1, ab.2))

/-- `u8::is_ascii_uppercase` lifted to characters; on valid UTF-8 no byte of
a multi-byte character lies in `A`–`Z`, so the byte-level `any` in the
source coincides with this character-level check. -/
def isAsciiUppercase (c : Char) : Bool := 65 ≤ c.toNat && c.toNat ≤ 90

/-- Rust `str::replace('\\', "/")` (character-for-character). -/
def normalizeSlashes (p : List Char) : List Char :=
  p.map (fun c => if c = '\\' then '/' else c)

/-! ## GitStub -/

/-- `GitStubParseError` from `crates/git-stub/src/errors.rs`. -/
inductive GitStubParseError where
  | emptyInput
  | invalidFormat (s : List Char)
  | invalidCommitHash (e : CommitHashParseError)
  | emptyPath
  | invalidPathComponent (path : List Char) (component : List Char)
  | newlineInPath
  deriving DecidableEq, Repr

/-- `GitStub` from `crates/git-stub/src/git_stub.rs`. The `path` field holds
the stored path string (already backslash-normalized by construction). -/
structure GitStub where
  commit : GitCommitHash
  path : List Char
  needs_rewrite : Bool
  deriving DecidableEq, Repr

/-- `GitStub::new`: record backslash presence, normalize backslashes, reject
empty path, reject embedded newline, then reject the first non-normal
component. -/
def GitStub.new (commit : GitCommitHash) (path : List Char) :
    Except GitStubParseError GitStub :=
  let needs_rewrite := decide ('\\' ∈ path)
  let normalized := normalizeSlashes path
  if normalized = [] then .error .emptyPath
  else if '\n' ∈ normalized then .error .newlineInPath
  else
    match findNonNormalComponent normalized with
    | some component => .error (.invalidPathComponent normalized component)
    | none => .ok ⟨commit, normalized, needs_rewrite⟩

/-- `FromStr for GitStub`: record non-canonical form (missing trailing
newline or surrounding whitespace, measured in bytes as in the source), trim,
split at the first `:`, parse the commit, record uppercase hex, construct via
`GitStub::new`, and merge the three rewrite signals. -/
def GitStub.fromStr (s : List Char) : Except GitStubParseError GitStub :=
  let needs_rewrite :=
    !(s.getLast? = some '\n') || strByteLen (rustTrim s) + 1 ≠ strByteLen s
  let trimmed := rustTrim s
  if trimmed = [] then .error .emptyInput
  else
    match splitOnceColon trimmed with
    | none => .error (.invalidFormat trimmed)
    | some (commitStr, path) =>
      match commitHashFromStr commitStr with
      | .error e => .error (.invalidCommitHash e)
      | .ok commit =>
        let hasUppercaseHex := commitStr.any isAsciiUppercase
        match GitStub.new commit path with
        | .error e => .error e
        | .ok stub =>
          .ok { stub with
                needs_rewrite := stub.needs_rewrite || needs_rewrite || hasUppercaseHex }

/-- `Display for GitStub`: `commit:path`, no trailing newline. -/
def GitStub.display (stub : GitStub) : List Char :=
  commitHashDisplay stub.commit ++ ':' :: stub.path

/-- `GitStub::to_file_contents`: the `Display` form plus one `\n`. -/
def GitStub.to_file_contents (stub : GitStub) : List Char :=
  stub.display ++ ['\n']

/-- The equality the source implements for `GitStub` (`impl PartialEq`):
commit and path only, with path equality the component-wise `Utf8PathBuf`
equality; `needs_rewrite` does not participate. -/
def GitStub.eqRust (a b : GitStub) : Bool :=
  a.commit = b.commit && pathEq a.path b.path

/-- The data `impl Hash for GitStub` feeds to the hasher: the commit and the
path (the latter hashed componentwise, consistently with path equality);
`needs_rewrite` is excluded. -/
def GitStub.hashData (s : GitStub) : GitCommitHash × List PathComponent :=
  (s.commit, pathComponents s.path)

/-! ## Environment and VCS model (`crates/git-stub-vcs/src/vcs.rs`)

Effectful environment and filesystem reads become explicit inputs: an
environment maps a variable name to its `std::env::var` outcome, and the
filesystem probes of `Vcs::detect` are supplied as functions.
-/

/-- The outcome of `std::env::var` for one variable. -/
inductive EnvVal where
  | notPresent
  | utf8 (s : List Char)
  | nonUnicode
  deriving DecidableEq

/-- `VcsEnvError` from `crates/git-stub-vcs/src/errors.rs` (the non-UTF-8
value itself is not modelled). -/
inductive VcsEnvError where
  | nonUtf8 (var : String)
  deriving DecidableEq, Repr

/-- `read_vcs_env`: trim a set value, falling back to the default when the
variable is unset or trims to empty; a non-UTF-8 value is an error. -/
def read_vcs_env (env : String → EnvVal) (var : String) (dflt : List Char) :
    Except VcsEnvError (List Char) :=
  match env var with
  | .utf8 s =>
    let trimmed := rustTrim s
    if trimmed = [] then .ok dflt else .ok trimmed
  | .notPresent => .ok dflt
  | .nonUnicode => .error (.nonUtf8 var)

/-- `Vcs` (its internal `VcsKind`): the backend discriminant plus the
resolved binary path. -/
inductive Vcs where
  | git (binary : List Char)
  | jj (binary : List Char)
  deriving DecidableEq, Repr

/-- `Vcs::git()`: `$GIT` or `"git"`. -/
def Vcs.gitOf (env : String → EnvVal) : Except VcsEnvError Vcs :=
  (read_vcs_env env "GIT" "git".data).map .git

/-- `Vcs::jj()`: `$JJ` or `"jj"`. -/
def Vcs.jjOf (env : String → EnvVal) : Except VcsEnvError Vcs :=
  (read_vcs_env env "JJ" "jj".data).map .jj

/-- `Utf8PathBuf::join` / `push` on Unix: an absolute right side replaces
the left entirely; otherwise append, inserting a `/` unless one is already
present. -/
def joinPath (a b : List Char) : List Char :=
  if b.head? = some '/' then b
  else if a = [] then b
  else if a.getLast? = some '/' then a ++ b
  else a ++ '/' :: b

/-- Outcome of `fs::metadata`, as `Vcs::detect` distinguishes it. -/
inductive MetaResult where
  | isDir
  | isFile
  | notFound
  | ioError (code : Nat)
  deriving DecidableEq

/-- The filesystem probes `Vcs::detect` performs, supplied as data. -/
structure FsModel where
  metadata : List Char → MetaResult
  tryExists : List Char → Except Nat Bool

/-- `VcsDetectError` from `crates/git-stub-vcs/src/errors.rs`. -/
inductive VcsDetectError where
  | pathNotFound (repoRoot : List Char)
  | notADirectory (repoRoot : List Char)
  | ioErr (path : List Char) (code : Nat)
  | notFound (repoRoot : List Char)
  | env (e : VcsEnvError)
  deriving DecidableEq, Repr

/-- `Vcs::detect`: probe the root (dir / not-a-dir / missing / I/O error),
then `.jj` takes priority over `.git`; neither is `NotFound`. -/
def Vcs.detect (fs : FsModel) (env : String → EnvVal) (repoRoot : List Char) :
    Except VcsDetectError Vcs :=
  match fs.metadata repoRoot with
  | .isDir =>
    (match fs.tryExists (joinPath repoRoot ".jj".data) with
     | .ok true => (Vcs.jjOf env).mapError .env
     | .ok false =>
       match fs.tryExists (joinPath repoRoot ".git".data) with
       | .ok true => (Vcs.gitOf env).mapError .env
       | .ok false => .error (.notFound repoRoot)
       | .error code => .error (.ioErr (joinPath repoRoot ".git".data) code)
     | .error code => .error (.ioErr (joinPath repoRoot ".jj".data) code))
  | .isFile => .error (.notADirectory repoRoot)
  | .notFound => .error (.pathNotFound repoRoot)
  | .ioError code => .error (.ioErr repoRoot code)

/-! ## Path file-name helpers (std `Path` semantics, used by `Materializer`) -/

/-- `Path::file_name`: the last component, when it is `Normal`. -/
def fileName (p : List Char) : Option (List Char) :=
  match (pathComponents p).getLast? with
  | some (.normal n) => some n
  | _ => none

/-- Split a file name at its last `.`: `some (before, after)` when a dot
exists. -/
def rsplitOnceDot : List Char → Option (List Char × List Char)
  | [] => none
  | c :: rest =>
    match rsplitOnceDot rest with
    | some ab => some (c :: ab.1, ab.2)
    | none => if c = '.' then some ([], rest) else none

/-- `Path::extension` restricted to a file name: the portion after the last
dot, unless there is none or the name's only dot is leading. -/
def extOfName (n : List Char) : Option (List Char) :=
  match rsplitOnceDot n with
  | some ab => if ab.1 = [] then none else some ab.2
  | none => none

/-- `Path::file_stem` restricted to a file name. -/
def fileStemOfName (n : List Char) : List Char :=
  match rsplitOnceDot n with
  | some ab => if ab.1 = [] then n else ab.1
  | none => n

/-- `Utf8Path::extension`. -/
def extensionOf (p : List Char) : Option (List Char) :=
  (fileName p).bind extOfName

/-- Drop trailing `/` characters. -/
def stripTrailingSlashes (p : List Char) : List Char :=
  (p.reverse.dropWhile (fun c => c = '/')).reverse

/-- The string of `Path::parent` when it exists: the path minus its final
component and the separators before it (a bare root collapses to `/`). -/
def parentStr (p : List Char) : List Char :=
  let q := stripTrailingSlashes p
  let r := q.reverse.dropWhile (fun c => c ≠ '/') |>.reverse
  if r ≠ [] ∧ r.all (fun c => c = '/') then ['/'] else stripTrailingSlashes r

/-- `Path::parent`: `none` exactly for an empty path or a bare root. -/
def parentOpt (p : List Char) : Option (List Char) :=
  match pathComponents p with
  | [] => none
  | [PathComponent.rootDir] => none
  | _ => some (parentStr p)

/-- `Path::with_extension("")`: strip the extension from the file name,
leaving the rest of the path; a path without a file name is unchanged. -/
def withExtensionEmpty (p : List Char) : List Char :=
  match fileName p with
  | none => p
  | some n => joinPath (parentStr p) (fileStemOfName n)

/-! ## Materializer model (`crates/git-stub-vcs/src/materialize.rs`)

The pipeline's effects (the cargo directive, the stub-file read, the VCS
subprocess, directory creation, and the atomic write) are recorded as an
explicit trace, and each effectful step's outcome is supplied by a `World`.
-/

/-- `ReadContentsError`, keeping only the discriminant. -/
inductive ReadContentsError where
  | spawnFailed
  | vcsFailed
  deriving DecidableEq, Repr

/-- `AtomicWriteError`, keeping only the discriminant. -/
inductive AtomicWriteError where
  | writeErr
  | renameErr
  deriving DecidableEq, Repr

/-- `MaterializeError` from `crates/git-stub-vcs/src/errors.rs`. I/O error
payloads are modelled as numeric codes. Note: there is no
`InvalidPathComponent` variant in the source enum. -/
inductive MaterializeError where
  | notGitStub (path : List Char)
  | readGitStub (path : List Char) (ioCode : Nat)
  | invalidGitStub (path : List Char) (e : GitStubParseError)
  | vcsDetect (e : VcsDetectError)
  | readContents (e : ReadContentsError)
  | shallowCloneCheck (repoRoot : List Char)
  | shallowClone (repoRoot : List Char)
  | createDir (path : List Char) (ioCode : Nat)
  | writeOutput (path : List Char) (e : AtomicWriteError)
  deriving DecidableEq, Repr

/-- One observable filesystem/process effect of the pipeline. -/
inductive Effect where
  | cargoDirective (path : List Char)
  | readFile (path : List Char)
  | vcsRead (stub : GitStub) (repoRoot : List Char)
  | createDir (path : List Char)
  | atomicWrite (path : List Char)
  deriving DecidableEq, Repr

/-- The outcomes of the effectful steps, supplied as data. -/
structure World where
  read_to_string : List Char → Except Nat (List Char)
  vcs_read : GitStub → List Char → Except ReadContentsError (List Nat)
  create_dir_all : List Char → Except Nat Unit
  atomic_write : List Char → List Nat → Except AtomicWriteError Unit

/-- `Materializer` (the fields of the Rust struct). -/
structure Materializer where
  repo_root : List Char
  output_dir : List Char
  emit_cargo_directives : Bool
  vcs : Vcs

/-- `Materializer::materialize_inner`: join the stub path onto the repo
root, optionally emit the cargo directive, read and parse the stub file,
fetch the contents via the VCS, create the output parent directory, and
atomically write. Returns the effect trace alongside the result. -/
def Materializer.materialize_inner (m : Materializer) (w : World)
    (git_stub_path output_path : List Char) :
    List Effect × Except MaterializeError Unit :=
  let full := joinPath m.repo_root git_stub_path
  let pre : List Effect :=
    if m.emit_cargo_directives then [.cargoDirective full] else []
  match w.read_to_string full with
  | .error code => (pre ++ [.readFile full], .error (.readGitStub full code))
  | .ok contents =>
    match GitStub.fromStr contents with
    | .error e => (pre ++ [.readFile full], .error (.invalidGitStub full e))
    | .ok stub =>
      match w.vcs_read stub m.repo_root with
      | .error e =>
        (pre ++ [.readFile full, .vcsRead stub m.repo_root],
         .error (.readContents e))
      | .ok content =>
        let dirEffects :=
          match parentOpt output_path with
          | some parent =>
            (match w.create_dir_all parent with
             | .error code => ([Effect.createDir parent], some (MaterializeError.createDir parent code))
             | .ok _ => ([Effect.createDir parent], none))
          | none => ([], none)
        match dirEffects with
        | (effs, some e) =>
          (pre ++ [.readFile full, .vcsRead stub m.repo_root] ++ effs, .error e)
        | (effs, none) =>
          match w.atomic_write output_path content with
          | .error e =>
            (pre ++ [.readFile full, .vcsRead stub m.repo_root] ++ effs
               ++ [.atomicWrite output_path],
             .error (.writeOutput output_path e))
          | .ok _ =>
            (pre ++ [.readFile full, .vcsRead stub m.repo_root] ++ effs
               ++ [.atomicWrite output_path],
             .ok ())

/-- `Materializer::materialize`: require the `.gitstub` extension before any
effect, derive the output path by stripping the extension under the output
directory, and run the pipeline. -/
def Materializer.materialize (m : Materializer) (w : World)
    (git_stub_path : List Char) :
    List Effect × Except MaterializeError (List Char) :=
  if extensionOf git_stub_path ≠ some "gitstub".data then
    ([], .error (.notGitStub git_stub_path))
  else
    let output_path := joinPath m.output_dir (withExtensionEmpty git_stub_path)
    match m.materialize_inner w git_stub_path output_path with
    | (tr, .ok _) => (tr, .ok output_path)
    | (tr, .error e) => (tr, .error e)

/-- `Materializer::materialize_to`: require the `.gitstub` extension before
any effect, then run the pipeline with the supplied output path joined onto
the output directory. -/
def Materializer.materialize_to (m : Materializer) (w : World)
    (git_stub_path output_path : List Char) :
    List Effect × Except MaterializeError Unit :=
  if extensionOf git_stub_path ≠ some "gitstub".data then
    ([], .error (.notGitStub git_stub_path))
  else
    m.materialize_inner w git_stub_path (joinPath m.output_dir output_path)

/-! ## Shared concrete data for witnesses -/

/-- A world in which every stub-file read fails with I/O error code 2
(`ENOENT`) and all other steps succeed. -/
def emptyWorld : World where
  read_to_string := fun _ => .error 2
  vcs_read := fun _ _ => .error .spawnFailed
  create_dir_all := fun _ => .ok ()
  atomic_write := fun _ _ => .ok ()

/-- Canonical sample stub-file contents (the `VALID_SHA1` of the source's
tests, pointing at `openapi/api.json`). -/
def sampleStubContents : List Char :=
  "0123456789abcdef0123456789abcdef01234567:openapi/api.json\n".data

/-- The stub `sampleStubContents` parses to. -/
def sampleStub : GitStub :=
  ⟨.sha1 [1, 35, 69, 103, 137, 171, 205, 239, 1, 35, 69, 103, 137, 171, 205,
     239, 1, 35, 69, 103],
   "openapi/api.json".data, false⟩

/-- A world in which every step succeeds and every stub file holds
`sampleStubContents`. -/
def okWorld : World where
  read_to_string := fun _ => .ok sampleStubContents
  vcs_read := fun _ _ => .ok [42]
  create_dir_all := fun _ => .ok ()
  atomic_write := fun _ _ => .ok ()

/-- A materializer rooted at `repo` with output directory `out`, no cargo
directives, and the git backend. -/
def sampleMaterializer : Materializer :=
  ⟨"repo".data, "out".data, false, .git "git".data⟩

/-! ## String and path lemmas -/

theorem hexVal_hexDigitChar {v : Nat} (hv : v < 16) : hexVal (hexDigitChar v) = some v := by
  interval_cases v <;> decide

theorem hexDigitChar_props {v : Nat} (hv : v < 16) :
    (hexDigitChar v).utf8Size = 1 ∧ isHexChar (hexDigitChar v) = true ∧
      hexDigitChar v ≠ ':' ∧ hexDigitChar v ≠ '\n' ∧ hexDigitChar v ≠ '\\' ∧
      isAsciiUppercase (hexDigitChar v) = false ∧
      rustIsWhitespace (hexDigitChar v) = false := by
  interval_cases v <;> decide

theorem pairDecode_displayBytes {bs : List Nat} (h : ∀ b ∈ bs, b < 256) :
    pairDecode (displayBytes bs) = bs := by
  induction bs with
  | nil => rfl
  | cons b rest ih =>
    have hb : b < 256 := h b (List.mem_cons_self b rest)
    have hdiv : b / 16 < 16 := by omega
    have hmod : b % 16 < 16 := Nat.mod_lt _ (by omega)
    have := ih (fun x hx => h x (List.mem_cons_of_mem b hx))
    simp [displayBytes, byteToHex, pairDecode, hexVal_hexDigitChar hdiv,
      hexVal_hexDigitChar hmod, this]
    omega

theorem strByteLen_displayBytes {bs : List Nat} (h : ∀ b ∈ bs, b < 256) :
    strByteLen (displayBytes bs) = 2 * bs.length := by
  induction bs with
  | nil => rfl
  | cons b rest ih =>
    have hb : b < 256 := h b (List.mem_cons_self b rest)
    have hdiv : b / 16 < 16 := by omega
    have hmod : b % 16 < 16 := Nat.mod_lt _ (by omega)
    have h1 := (hexDigitChar_props hdiv).1
    have h2 := (hexDigitChar_props hmod).1
    have := ih (fun x hx => h x (List.mem_cons_of_mem b hx))
    simp [displayBytes, byteToHex, strByteLen] at this ⊢
    simp [h1, h2, this]
    ring

theorem all_isHexChar_displayBytes {bs : List Nat} (h : ∀ b ∈ bs, b < 256) :
    (displayBytes bs).all isHexChar = true := by
  induction bs with
  | nil => rfl
  | cons b rest ih =>
    have hb : b < 256 := h b (List.mem_cons_self b rest)
    have hdiv : b / 16 < 16 := by omega
    have hmod : b % 16 < 16 := Nat.mod_lt _ (by omega)
    have := ih (fun x hx => h x (List.mem_cons_of_mem b hx))
    simp [displayBytes, byteToHex, List.all_append, this,
      (hexDigitChar_props hdiv).2.1, (hexDigitChar_props hmod).2.1]

theorem any_upper_displayBytes {bs : List Nat} (h : ∀ b ∈ bs, b < 256) :
    (displayBytes bs).any isAsciiUppercase = false := by
  induction bs with
  | nil => rfl
  | cons b rest ih =>
    have hb : b < 256 := h b (List.mem_cons_self b rest)
    have hdiv : b / 16 < 16 := by omega
    have hmod : b % 16 < 16 := Nat.mod_lt _ (by omega)
    have := ih (fun x hx => h x (List.mem_cons_of_mem b hx))
    simp [displayBytes, byteToHex, List.any_append, this,
      (hexDigitChar_props hdiv).2.2.2.2.2.1, (hexDigitChar_props hmod).2.2.2.2.2.1]

/-- Round-trip at the hash level: displaying a well-formed hash and
reparsing recovers the hash. -/
theorem commitHashFromStr_display {h : GitCommitHash} (hwf : wfCommitHash h) :
    commitHashFromStr (commitHashDisplay h) = .ok h := by
  cases h with
  | sha1 bs =>
    obtain ⟨hlen, hbs⟩ := hwf
    have hbl : strByteLen (displayBytes bs) = 40 := by
      rw [strByteLen_displayBytes hbs, hlen]
    simp [commitHashFromStr, commitHashDisplay, GitCommitHash.bytes, hbl,
      all_isHexChar_displayBytes hbs, pairDecode_displayBytes hbs]
  | sha256 bs =>
    obtain ⟨hlen, hbs⟩ := hwf
    have hbl : strByteLen (displayBytes bs) = 64 := by
      rw [strByteLen_displayBytes hbs, hlen]
    simp [commitHashFromStr, commitHashDisplay, GitCommitHash.bytes, hbl,
      all_isHexChar_displayBytes hbs, pairDecode_displayBytes hbs]

theorem hexChar_ranges {c : Char} (h : isHexChar c = true) :
    (48 ≤ c.toNat ∧ c.toNat ≤ 57) ∨ (97 ≤ c.toNat ∧ c.toNat ≤ 102) ∨
      (65 ≤ c.toNat ∧ c.toNat ≤ 70) := by
  unfold isHexChar hexVal at h
  split_ifs at h with h1 h2 h3
  · exact .inl h1
  · exact .inr (.inl h2)
  · exact .inr (.inr h3)
  · simp at h

theorem isHexChar_not_ws {c : Char} (h : isHexChar c = true) :
    rustIsWhitespace c = false := by
  rcases hexChar_ranges h with h' | h' | h' <;>
    · simp only [rustIsWhitespace, List.mem_cons, List.not_mem_nil, or_false,
        decide_eq_false_iff_not]
      omega

theorem colon_not_mem_of_all_hex {cs : List Char} (h : cs.all isHexChar = true) :
    ':' ∉ cs := by
  intro hm
  have hx := List.all_eq_true.mp h ':' hm
  exact absurd hx (by decide)

theorem dropWhile_ws_eq_self {l : List Char} {c : Char}
    (hh : l.head? = some c) (hc : rustIsWhitespace c = false) :
    l.dropWhile rustIsWhitespace = l := by
  cases l with
  | nil => simp at hh
  | cons a t =>
    simp only [List.head?_cons, Option.some.injEq] at hh
    subst hh
    simp [List.dropWhile_cons, hc]

theorem rustTrim_eq_self {l : List Char} {c d : Char}
    (hh : l.head? = some c) (hc : rustIsWhitespace c = false)
    (hl : l.getLast? = some d) (hd : rustIsWhitespace d = false) :
    rustTrim l = l := by
  unfold rustTrim
  rw [dropWhile_ws_eq_self hh hc,
    dropWhile_ws_eq_self (by rw [List.head?_reverse]; exact hl) hd,
    List.reverse_reverse]

theorem rustTrim_append_newline {x : List Char} {c d : Char}
    (hh : x.head? = some c) (hc : rustIsWhitespace c = false)
    (hl : x.getLast? = some d) (hd : rustIsWhitespace d = false) :
    rustTrim (x ++ ['\n']) = x := by
  unfold rustTrim
  have hh' : (x ++ ['\n']).head? = some c := by
    cases x with
    | nil => simp at hh
    | cons a t => simpa using hh
  rw [dropWhile_ws_eq_self hh' hc, List.reverse_append]
  simp only [List.reverse_cons, List.reverse_nil, List.nil_append,
    List.singleton_append, List.dropWhile_cons]
  norm_num [show rustIsWhitespace '\n' = true from rfl]
  rw [dropWhile_ws_eq_self (by rw [List.head?_reverse]; exact hl) hd,
    List.reverse_reverse]

theorem splitOnceColon_append {a : List Char} (b : List Char) (ha : ':' ∉ a) :
    splitOnceColon (a ++ ':' :: b) = some (a, b) := by
  induction a with
  | nil => simp [splitOnceColon]
  | cons c t ih =>
    have hc : c ≠ ':' := fun h => ha (by simp [h])
    have ht : ':' ∉ t := fun h => ha (List.mem_cons_of_mem c h)
    simp [splitOnceColon, hc, ih ht]

theorem strByteLen_append (a b : List Char) :
    strByteLen (a ++ b) = strByteLen a + strByteLen b := by
  simp [strByteLen]

theorem normalizeSlashes_eq_self {p : List Char} (hbs : '\\' ∉ p) :
    normalizeSlashes p = p := by
  induction p with
  | nil => rfl
  | cons c t ih =>
    have hc : c ≠ '\\' := fun h => hbs (by simp [h])
    have ht : '\\' ∉ t := fun h => hbs (List.mem_cons_of_mem c h)
    show (if c = '\\' then '/' else c) :: normalizeSlashes t = c :: t
    rw [if_neg hc, ih ht]

theorem splitSlash_ne_nil (p : List Char) : splitSlash p ≠ [] := by
  cases p with
  | nil => simp [splitSlash]
  | cons c t =>
    unfold splitSlash
    split_ifs
    · simp
    · cases splitSlash t <;> simp

/-- `GitStub::new` succeeds and stores the path verbatim for a clean path:
nonempty, backslash-free, newline-free, with only normal components. -/
theorem gitStubNew_ok {commit : GitCommitHash} {p : List Char}
    (hp0 : p ≠ []) (hnl : '\n' ∉ p) (hbs : '\\' ∉ p)
    (hfind : findNonNormalComponent p = none) :
    GitStub.new commit p = .ok ⟨commit, p, false⟩ := by
  simp [GitStub.new, normalizeSlashes_eq_self hbs, hp0, hnl, hfind, hbs]

/-- `GitStub::new` rejects a path whose normalized form has a non-normal
component, naming that component. -/
theorem gitStubNew_error {commit : GitCommitHash} {p comp : List Char}
    (hnl : '\n' ∉ normalizeSlashes p)
    (hfind : findNonNormalComponent (normalizeSlashes p) = some comp) :
    GitStub.new commit p
      = .error (.invalidPathComponent (normalizeSlashes p) comp) := by
  have hne : normalizeSlashes p ≠ [] := by
    intro h
    rw [h] at hfind
    simp [findNonNormalComponent, pathComponents, splitSlash] at hfind
  simp [GitStub.new, hne, hnl, hfind]

theorem getLast?_hexColonPath {cs p : List Char} (hp0 : p ≠ []) :
    (cs ++ ':' :: p).getLast? = p.getLast? := by
  rw [List.append_cons, List.getLast?_append]
  have hs : p.getLast?.isSome := List.getLast?_isSome.mpr hp0
  cases hl : p.getLast? with
  | none => rw [hl] at hs; simp at hs
  | some x => simp

/-- Reduction of `GitStub::from_str` on `cs ++ ":" ++ p` with a hex `cs`
and a path not ending in whitespace: the trim is the identity and the
missing trailing newline forces the rewrite flag. -/
theorem fromStr_clean_no_newline {cs p : List Char} {commit : GitCommitHash}
    {d : Char}
    (hparse : commitHashFromStr cs = .ok commit)
    (hhex : cs.all isHexChar = true) (hcs0 : cs ≠ [])
    (hp0 : p ≠ []) (hlast : p.getLast? = some d)
    (hd : rustIsWhitespace d = false) :
    GitStub.fromStr (cs ++ ':' :: p)
      = (match GitStub.new commit p with
         | .error e => .error e
         | .ok stub => .ok { stub with needs_rewrite := true }) := by
  obtain ⟨c, cs', rfl⟩ : ∃ c cs', cs = c :: cs' := by
    cases cs with
    | nil => exact absurd rfl hcs0
    | cons c cs' => exact ⟨c, cs', rfl⟩
  have hc : isHexChar c = true := by
    have := List.all_eq_true.mp hhex c (by simp)
    simpa using this
  have hhead : ((c :: cs') ++ ':' :: p).head? = some c := by simp
  have hlast' : ((c :: cs') ++ ':' :: p).getLast? = some d := by
    rw [getLast?_hexColonPath hp0]; exact hlast
  have htrim : rustTrim ((c :: cs') ++ ':' :: p) = (c :: cs') ++ ':' :: p :=
    rustTrim_eq_self hhead (isHexChar_not_ws hc) hlast' hd
  have hsplit : splitOnceColon ((c :: cs') ++ ':' :: p) = some (c :: cs', p) :=
    splitOnceColon_append p (colon_not_mem_of_all_hex hhex)
  have hne : (c :: cs') ++ ':' :: p ≠ [] := by simp
  unfold GitStub.fromStr
  rw [htrim]
  generalize (c :: cs') ++ ':' :: p = s at hsplit hne ⊢
  cases hn : GitStub.new commit p with
  | error e => simp [hsplit, hparse, hne, hn]
  | ok stub => simp [hsplit, hparse, hne, hn]

/-- Reduction of `GitStub::from_str` on the canonical
`cs ++ ":" ++ p ++ "\n"`: the trim removes exactly the newline, so only the
backslash and uppercase-hex signals remain. -/
theorem fromStr_clean_newline {cs p : List Char} {commit : GitCommitHash}
    {d : Char}
    (hparse : commitHashFromStr cs = .ok commit)
    (hhex : cs.all isHexChar = true) (hcs0 : cs ≠ [])
    (hp0 : p ≠ []) (hlast : p.getLast? = some d)
    (hd : rustIsWhitespace d = false) :
    GitStub.fromStr (cs ++ ':' :: (p ++ ['\n']))
      = (match GitStub.new commit p with
         | .error e => .error e
         | .ok stub =>
           .ok { stub with
                 needs_rewrite := stub.needs_rewrite || cs.any isAsciiUppercase }) := by
  obtain ⟨c, cs', rfl⟩ : ∃ c cs', cs = c :: cs' := by
    cases cs with
    | nil => exact absurd rfl hcs0
    | cons c cs' => exact ⟨c, cs', rfl⟩
  have hc : isHexChar c = true := by
    have := List.all_eq_true.mp hhex c (by simp)
    simpa using this
  have hassoc : (c :: cs') ++ ':' :: (p ++ ['\n'])
      = ((c :: cs') ++ ':' :: p) ++ ['\n'] := by simp
  have hhead : ((c :: cs') ++ ':' :: p).head? = some c := by simp
  have hlast' : ((c :: cs') ++ ':' :: p).getLast? = some d := by
    rw [getLast?_hexColonPath hp0]; exact hlast
  have htrim : rustTrim (((c :: cs') ++ ':' :: p) ++ ['\n'])
      = (c :: cs') ++ ':' :: p :=
    rustTrim_append_newline hhead (isHexChar_not_ws hc) hlast' hd
  have hblen : strByteLen (((c :: cs') ++ ':' :: p) ++ ['\n'])
      = strByteLen ((c :: cs') ++ ':' :: p) + 1 := by
    rw [strByteLen_append]; rfl
  have hsplit : splitOnceColon ((c :: cs') ++ ':' :: p) = some (c :: cs', p) :=
    splitOnceColon_append p (colon_not_mem_of_all_hex hhex)
  have hne : (c :: cs') ++ ':' :: p ≠ [] := by simp
  unfold GitStub.fromStr
  rw [hassoc, htrim]
  generalize (c :: cs') ++ ':' :: p = s at hsplit hne hblen ⊢
  cases hn : GitStub.new commit p with
  | error e => simp [hsplit, hparse, hne, hn, hblen, List.getLast?_concat]
  | ok stub => simp [hsplit, hparse, hne, hn, hblen, List.getLast?_concat]

/-- Reduction of `pathComponents` for a rootless path via its raw
slash-split. -/
theorem pathComponents_of_splitSlash {p first : List Char}
    {rest : List (List Char)}
    (hroot : ¬ p.head? = some '/') (hs : splitSlash p = first :: rest) :
    pathComponents p =
      (if first = [] then
        (rest.filter (fun s => !isSkippableSeg s)).map segToComponent
       else if first = ['.'] then
        .curDir :: (rest.filter (fun s => !isSkippableSeg s)).map segToComponent
       else
        segToComponent first ::
          (rest.filter (fun s => !isSkippableSeg s)).map segToComponent) := by
  unfold pathComponents
  rw [if_neg hroot, hs]

/-- A `..` segment anywhere in the raw slash-split of a path survives as a
`ParentDir` in the component decomposition. -/
theorem parentDir_mem_components {q : List Char}
    (h : ['.', '.'] ∈ splitSlash q) :
    PathComponent.parentDir ∈ pathComponents q := by
  have hseg : isSkippableSeg ['.', '.'] = false := by decide
  have hcomp : segToComponent ['.', '.'] = .parentDir := by decide
  by_cases hroot : q.head? = some '/'
  · unfold pathComponents
    rw [if_pos hroot]
    refine List.mem_cons_of_mem _ ?_
    rw [← hcomp]
    exact List.mem_map_of_mem _ (List.mem_filter.mpr ⟨h, by simp [hseg]⟩)
  · cases hs : splitSlash q with
    | nil => exact absurd hs (splitSlash_ne_nil q)
    | cons first rest =>
      rw [pathComponents_of_splitSlash hroot hs]
      rw [hs] at h
      rcases List.mem_cons.mp h with hfirst | hrest
      · have h1 : ¬ first = [] := by rw [← hfirst]; simp
        have h2 : ¬ first = ['.'] := by rw [← hfirst]; simp
        simp only [if_neg h1, if_neg h2, ← hfirst, hcomp]
        exact List.mem_cons_self _ _
      · have hmem : PathComponent.parentDir ∈
            (rest.filter (fun s => !isSkippableSeg s)).map segToComponent := by
          rw [← hcomp]
          exact List.mem_map_of_mem _ (List.mem_filter.mpr ⟨hrest, by simp [hseg]⟩)
        split_ifs <;> simp [hmem]

theorem findNonNormal_isSome_of_parentDir {q : List Char}
    (h : PathComponent.parentDir ∈ pathComponents q) :
    findNonNormalComponent q ≠ none := by
  unfold findNonNormalComponent
  have : (pathComponents q).find? (fun c => !c.isNormal) ≠ none := by
    rw [Ne, List.find?_eq_none]
    push_neg
    exact ⟨.parentDir, h, by decide⟩
  cases hf : (pathComponents q).find? (fun c => !c.isNormal) with
  | none => exact absurd hf this
  | some c => simp

/-! ## Claim theorems -/

/-- C4: `GitCommitHash::from_str` fails with `InvalidLength(actual)` for
every byte length other than 40 and 64 (including 0), fails with
`InvalidHex` exactly for a length-40-or-64 string that is not all hex, and
checks length before hex validity, so a 41-byte string is `InvalidLength 41`
even when all-hex. -/
theorem c4_commit_hash_parse_errors (s : List Char) :
    (strByteLen s ≠ 40 → strByteLen s ≠ 64 →
      commitHashFromStr s = .error (.invalidLength (strByteLen s))) ∧
    (commitHashFromStr s = .error .invalidHex ↔
      ((strByteLen s = 40 ∨ strByteLen s = 64) ∧ ¬ s.all isHexChar = true)) ∧
    (strByteLen s = 41 → commitHashFromStr s = .error (.invalidLength 41)) := by
  unfold commitHashFromStr
  refine ⟨fun h40 h64 => by simp [h40, h64], ?_, fun h41 => by simp [h41]⟩
  split_ifs with h1 h2 h3 h4 <;> simp_all

/-- C4 witness: the empty string is `InvalidLength 0` and a 41-character
all-hex string is `InvalidLength 41`, not decoded. -/
theorem c4_commit_hash_parse_errors_witness :
    commitHashFromStr [] = .error (.invalidLength 0) ∧
    commitHashFromStr (List.replicate 41 '0') = .error (.invalidLength 41) := by
  refine ⟨?_, ?_⟩
  · exact (c4_commit_hash_parse_errors []).1 (by decide) (by decide)
  · exact (c4_commit_hash_parse_errors (List.replicate 41 '0')).2.2 (by decide)

/-- C5: `GitStub` equality and the data fed to `Hash` depend only on the
`(commit, path)` pair: stubs with equal commits and component-equal paths
are equal and hash identically whatever their `needs_rewrite` flags, the
flag never affects either, and equality implies hash-data equality. -/
theorem c5_eq_hash_ignore_rewrite :
    (∀ a b : GitStub, a.commit = b.commit → pathEq a.path b.path = true →
       GitStub.eqRust a b = true ∧ GitStub.hashData a = GitStub.hashData b) ∧
    (∀ c p f₁ f₂, GitStub.eqRust ⟨c, p, f₁⟩ ⟨c, p, f₂⟩ = true ∧
       GitStub.hashData ⟨c, p, f₁⟩ = GitStub.hashData ⟨c, p, f₂⟩) ∧
    (∀ a b : GitStub, GitStub.eqRust a b = true →
       GitStub.hashData a = GitStub.hashData b) := by
  refine ⟨fun a b hc hp => ?_, fun c p f₁ f₂ => ?_, fun a b h => ?_⟩
  · simp only [GitStub.eqRust, GitStub.hashData, pathEq] at *
    simp_all
  · simp [GitStub.eqRust, GitStub.hashData, pathEq]
  · simp only [GitStub.eqRust, GitStub.hashData, pathEq] at *
    simp_all

/-- C5 witness: two stubs over `a/b` and `a//b` (component-equal paths)
with opposite flags are equal and share hash data. -/
theorem c5_eq_hash_ignore_rewrite_witness :
    GitStub.eqRust ⟨.sha1 [1], "a/b".data, false⟩ ⟨.sha1 [1], "a//b".data, true⟩
        = true ∧
    GitStub.hashData ⟨.sha1 [1], "a/b".data, false⟩
        = GitStub.hashData ⟨.sha1 [1], "a//b".data, true⟩ :=
  c5_eq_hash_ignore_rewrite.1 _ _ rfl (by decide)

/-- C7: with the repository root an existing directory and well-formed
backend environment variables, `Vcs::detect` selects jj whenever `.jj`
exists (regardless of `.git`), selects git when only `.git` exists (its
existence check does not distinguish directory from file), and fails with
`NotFound` when neither exists. -/
theorem c7_detect_priority (fs : FsModel) (env : String → EnvVal)
    (root bjj bgit : List Char)
    (hmeta : fs.metadata root = .isDir)
    (hjj : read_vcs_env env "JJ" "jj".data = .ok bjj)
    (hgit : read_vcs_env env "GIT" "git".data = .ok bgit) :
    (fs.tryExists (joinPath root ".jj".data) = .ok true →
       Vcs.detect fs env root = .ok (.jj bjj)) ∧
    (fs.tryExists (joinPath root ".jj".data) = .ok false →
       fs.tryExists (joinPath root ".git".data) = .ok true →
       Vcs.detect fs env root = .ok (.git bgit)) ∧
    (fs.tryExists (joinPath root ".jj".data) = .ok false →
       fs.tryExists (joinPath root ".git".data) = .ok false →
       Vcs.detect fs env root = .error (.notFound root)) := by
  refine ⟨fun h1 => ?_, fun h1 h2 => ?_, fun h1 h2 => ?_⟩
  · simp [Vcs.detect, hmeta, h1, Vcs.jjOf, hjj, Except.map, Except.mapError]
  · simp [Vcs.detect, hmeta, h1, h2, Vcs.gitOf, hgit, Except.map,
      Except.mapError]
  · simp [Vcs.detect, hmeta, h1, h2]

/-- C7 witness: a colocated root (both `.jj` and `.git` present) resolves
to the jj backend with the default binary. -/
theorem c7_detect_priority_witness :
    Vcs.detect
      ⟨fun p => if p = "r".data then .isDir else .notFound,
       fun _ => .ok true⟩
      (fun _ => .notPresent) "r".data = .ok (.jj "jj".data) :=
  (c7_detect_priority _ (fun _ => .notPresent) "r".data "jj".data "git".data
    rfl rfl rfl).1 rfl

/-- C8: `read_vcs_env` returns the default when the variable is unset or
trims to empty, the trimmed value otherwise, and errors exactly when the
value is not UTF-8. -/
theorem c8_read_vcs_env (env : String → EnvVal) (var : String) (dflt : List Char) :
    (env var = .notPresent → read_vcs_env env var dflt = .ok dflt) ∧
    (∀ s, env var = .utf8 s → rustTrim s = [] →
       read_vcs_env env var dflt = .ok dflt) ∧
    (∀ s, env var = .utf8 s → rustTrim s ≠ [] →
       read_vcs_env env var dflt = .ok (rustTrim s)) ∧
    (env var = .nonUnicode → read_vcs_env env var dflt = .error (.nonUtf8 var)) ∧
    (∀ e, read_vcs_env env var dflt = .error e → env var = .nonUnicode) := by
  refine ⟨fun h => by simp [read_vcs_env, h],
    fun s hs ht => by simp [read_vcs_env, hs, ht],
    fun s hs ht => by simp [read_vcs_env, hs, ht],
    fun h => by simp [read_vcs_env, h],
    fun e he => ?_⟩
  unfold read_vcs_env at he
  cases h : env var <;> simp [h] at he <;> try rfl
  split at he <;> simp_all

/-- C8 witness: a whitespace-only `$GIT` falls back to the default `git`. -/
theorem c8_read_vcs_env_witness :
    read_vcs_env (fun _ => .utf8 "   ".data) "GIT" "git".data = .ok "git".data :=
  (c8_read_vcs_env (fun _ => .utf8 "   ".data) "GIT" "git".data).2.1
    "   ".data rfl (by decide)

/-- C9: a stub-path argument without the `.gitstub` extension makes both
`materialize` and `materialize_to` fail with `NotGitStub` with an empty
effect trace — no filesystem or process access, no state change. -/
theorem c9_not_gitstub_before_effects (m : Materializer) (w : World)
    (p op : List Char) (hext : extensionOf p ≠ some "gitstub".data) :
    m.materialize w p = ([], .error (.notGitStub p)) ∧
    m.materialize_to w p op = ([], .error (.notGitStub p)) := by
  constructor <;>
    simp [Materializer.materialize, Materializer.materialize_to, hext]

/-- C9 witness: materializing `openapi/api.json` (extension `json`) fails
with `NotGitStub` and performs no effects, even in a world where reads
would succeed. -/
theorem c9_not_gitstub_before_effects_witness :
    sampleMaterializer.materialize okWorld "openapi/api.json".data
      = ([], .error (.notGitStub "openapi/api.json".data)) ∧
    sampleMaterializer.materialize_to okWorld "openapi/api.json".data
        "out.json".data
      = ([], .error (.notGitStub "openapi/api.json".data)) :=
  c9_not_gitstub_before_effects sampleMaterializer okWorld _ _ (by decide)

/-- C10: `materialize_to` joins the supplied output path onto the output
directory with plain `join` semantics — an absolute output path replaces
the output directory entirely — and no validation rejects any output-path
shape: with the pipeline steps succeeding, the atomic write lands at the
joined path whatever the shape of `op`. -/
theorem c10_materialize_to_join (m : Materializer) (w : World)
    (p op contents : List Char) (stub : GitStub) (content : List Nat)
    (hext : extensionOf p = some "gitstub".data)
    (hread : w.read_to_string (joinPath m.repo_root p) = .ok contents)
    (hparse : GitStub.fromStr contents = .ok stub)
    (hvcs : w.vcs_read stub m.repo_root = .ok content)
    (hdir : ∀ parent, parentOpt (joinPath m.output_dir op) = some parent →
       w.create_dir_all parent = .ok ())
    (hwrite : w.atomic_write (joinPath m.output_dir op) content = .ok ()) :
    (op.head? = some '/' → joinPath m.output_dir op = op) ∧
    (m.materialize_to w p op).2 = .ok () ∧
    Effect.atomicWrite (joinPath m.output_dir op) ∈ (m.materialize_to w p op).1 := by
  have habs : op.head? = some '/' → joinPath m.output_dir op = op := by
    intro h
    simp [joinPath, h]
  have hrun : m.materialize_to w p op
      = m.materialize_inner w p (joinPath m.output_dir op) := by
    simp [Materializer.materialize_to, hext]
  refine ⟨habs, ?_, ?_⟩ <;> rw [hrun]
  · rcases hpar : parentOpt (joinPath m.output_dir op) with _ | parent
    · simp [Materializer.materialize_inner, hread, hparse, hvcs, hpar, hwrite]
    · simp [Materializer.materialize_inner, hread, hparse, hvcs, hpar, hwrite,
        hdir parent hpar]
  · rcases hpar : parentOpt (joinPath m.output_dir op) with _ | parent
    · simp [Materializer.materialize_inner, hread, hparse, hvcs, hpar, hwrite]
    · simp [Materializer.materialize_inner, hread, hparse, hvcs, hpar, hwrite,
        hdir parent hpar]

/-- C10 witness: with an absolute output path `/tmp/out.json`, the joined
target is `/tmp/out.json` itself (outside the `out` directory) and the
pipeline writes there successfully. -/
theorem c10_materialize_to_join_witness :
    joinPath "out".data "/tmp/out.json".data = "/tmp/out.json".data ∧
    (sampleMaterializer.materialize_to okWorld "openapi/api.json.gitstub".data
        "/tmp/out.json".data).2 = .ok () := by
  have h := c10_materialize_to_join sampleMaterializer okWorld
    "openapi/api.json.gitstub".data "/tmp/out.json".data
    sampleStubContents sampleStub [42]
    (by decide) rfl (by decide) rfl (fun _ _ => rfl) rfl
  exact ⟨h.1 rfl, h.2.1⟩

/-- C1 (code evaluated at the failing input): with the stub path
`../escape/api.json.gitstub` — which has the `.gitstub` extension and a
parent-reference component — `materialize` performs the stub-file read at
`repo/../escape/api.json.gitstub` and fails with `ReadGitStub`, not with
any path-shape error before the read (the source `MaterializeError` has no
`InvalidPathComponent` variant at all, though the repository's own
integration tests expect one). `materialize_to` likewise reads an absolute
stub path `/etc/api.json.gitstub` verbatim. -/
theorem c1_traversal_stub_path_is_read :
    sampleMaterializer.materialize emptyWorld "../escape/api.json.gitstub".data
      = ([.readFile "repo/../escape/api.json.gitstub".data],
         .error (.readGitStub "repo/../escape/api.json.gitstub".data 2)) ∧
    sampleMaterializer.materialize_to emptyWorld "/etc/api.json.gitstub".data
        "output.json".data
      = ([.readFile "/etc/api.json.gitstub".data],
         .error (.readGitStub "/etc/api.json.gitstub".data 2)) := by
  constructor <;> decide

/-- C2 counterexample: the path `a/./b.json` contains a `.` segment in the
middle of the path, yet both `GitStub::new` and `GitStub::from_str` accept
it — component decomposition normalizes a non-leading `.` away, so no
`InvalidPathComponent` error is produced. -/
theorem c2_mid_path_curdir_accepted :
    GitStub.new sampleStub.commit "a/./b.json".data
      = .ok ⟨sampleStub.commit, "a/./b.json".data, false⟩ ∧
    GitStub.fromStr
        "0123456789abcdef0123456789abcdef01234567:a/./b.json\n".data
      = .ok ⟨sampleStub.commit, "a/./b.json".data, false⟩ := by
  constructor <;> decide

/-- C2 (amended): both `GitStub::new` and `GitStub::from_str` fail with
`InvalidPathComponent` naming the first offending component whenever the
normalized path's component decomposition contains a non-normal component;
a `..` segment anywhere in the raw slash-split guarantees this (while a
non-leading `.` segment is normalized away, and on Unix drive prefixes do
not arise as components). -/
theorem c2_invalid_component_rejection :
    (∀ (commit : GitCommitHash) (cs p comp : List Char) (d : Char),
       findNonNormalComponent (normalizeSlashes p) = some comp →
       '\n' ∉ normalizeSlashes p →
       commitHashFromStr cs = .ok commit → cs.all isHexChar = true →
       cs ≠ [] → p ≠ [] → p.getLast? = some d → rustIsWhitespace d = false →
       GitStub.new commit p
           = .error (.invalidPathComponent (normalizeSlashes p) comp) ∧
       GitStub.fromStr (cs ++ ':' :: p)
           = .error (.invalidPathComponent (normalizeSlashes p) comp)) ∧
    (∀ q : List Char, ['.', '.'] ∈ splitSlash q →
       findNonNormalComponent q ≠ none) := by
  constructor
  · intro commit cs p comp d hfind hnl hparse hhex hcs0 hp0 hlast hd
    have hnew := @gitStubNew_error commit p comp hnl hfind
    refine ⟨hnew, ?_⟩
    rw [fromStr_clean_no_newline hparse hhex hcs0 hp0 hlast hd, hnew]
  · intro q hq
    exact findNonNormal_isSome_of_parentDir (parentDir_mem_components hq)

/-- C2 witness: an embedded `..` (via direct construction) and a leading
`/` (via parsing) are both rejected with `InvalidPathComponent` naming the
offending component. -/
theorem c2_invalid_component_rejection_witness :
    GitStub.new sampleStub.commit "openapi/../../escape/api.json".data
      = .error (.invalidPathComponent "openapi/../../escape/api.json".data
          ['.', '.']) ∧
    GitStub.fromStr
        "0123456789abcdef0123456789abcdef01234567:/etc/passwd".data
      = .error (.invalidPathComponent "/etc/passwd".data ['/']) := by
  have h1 := c2_invalid_component_rejection.1 sampleStub.commit
    "0123456789abcdef0123456789abcdef01234567".data
    "openapi/../../escape/api.json".data ['.', '.'] 'n'
    (by decide) (by decide) (by decide) (by decide) (by decide) (by decide)
    (by decide) (by decide)
  have h2 := c2_invalid_component_rejection.1 sampleStub.commit
    "0123456789abcdef0123456789abcdef01234567".data
    "/etc/passwd".data ['/'] 'd'
    (by decide) (by decide) (by decide) (by decide) (by decide) (by decide)
    (by decide) (by decide)
  exact ⟨h1.1, h2.2⟩

/-- C3 counterexample: the path `"a "` (trailing space) is accepted by
`GitStub::new` with `needs_rewrite = false`, but parsing its canonical file
contents trims the space away: the reparsed stub has path `"a"`, reports
`needs_rewrite = true`, and is not equal (under the source's equality) to
the directly constructed stub. -/
theorem c3_trailing_whitespace_breaks_roundtrip :
    GitStub.new sampleStub.commit "a ".data
      = .ok ⟨sampleStub.commit, "a ".data, false⟩ ∧
    GitStub.fromStr
        (GitStub.to_file_contents ⟨sampleStub.commit, "a ".data, false⟩)
      = .ok ⟨sampleStub.commit, "a".data, true⟩ ∧
    GitStub.eqRust ⟨sampleStub.commit, "a ".data, false⟩
        ⟨sampleStub.commit, "a".data, true⟩ = false := by
  refine ⟨?_, ?_, ?_⟩ <;> decide

/-- C3 (amended): for every well-formed commit hash and every valid plain
relative path whose final character is not whitespace, parsing the
`to_file_contents` of the directly constructed stub yields that very stub
back, with `needs_rewrite = false`. -/
theorem c3_roundtrip (h : GitCommitHash) (p : List Char) (d : Char)
    (hwf : wfCommitHash h) (hp0 : p ≠ []) (hnl : '\n' ∉ p) (hbs : '\\' ∉ p)
    (hfind : findNonNormalComponent p = none)
    (hlast : p.getLast? = some d) (hd : rustIsWhitespace d = false) :
    GitStub.new h p = .ok ⟨h, p, false⟩ ∧
    GitStub.fromStr (GitStub.to_file_contents ⟨h, p, false⟩)
      = .ok ⟨h, p, false⟩ := by
  have hnew : GitStub.new h p = .ok ⟨h, p, false⟩ :=
    gitStubNew_ok hp0 hnl hbs hfind
  refine ⟨hnew, ?_⟩
  have hbytes : ∀ b ∈ h.bytes, b < 256 := by
    cases h with
    | sha1 bs => exact hwf.2
    | sha256 bs => exact hwf.2
  have hhex : (commitHashDisplay h).all isHexChar = true :=
    all_isHexChar_displayBytes hbytes
  have hcs0 : commitHashDisplay h ≠ [] := by
    intro hc
    have hr := commitHashFromStr_display hwf
    rw [hc] at hr
    simp [commitHashFromStr, strByteLen] at hr
  have hcontents : GitStub.to_file_contents ⟨h, p, false⟩
      = commitHashDisplay h ++ ':' :: (p ++ ['\n']) := by
    simp [GitStub.to_file_contents, GitStub.display]
  have hupper : (commitHashDisplay h).any isAsciiUppercase = false :=
    any_upper_displayBytes hbytes
  rw [hcontents,
    fromStr_clean_newline (commitHashFromStr_display hwf) hhex hcs0 hp0
      hlast hd, hnew]
  simp [hupper]

/-- C3 witness: the sample commit and the path `openapi/api.json`
round-trip exactly. -/
theorem c3_roundtrip_witness :
    GitStub.new sampleStub.commit "openapi/api.json".data = .ok sampleStub ∧
    GitStub.fromStr (GitStub.to_file_contents sampleStub) = .ok sampleStub :=
  c3_roundtrip sampleStub.commit "openapi/api.json".data 'n'
    (by exact ⟨by decide, by decide⟩) (by decide) (by decide) (by decide)
    (by decide) (by decide) (by decide)

/-- C6: parsing `cs ++ ":" ++ p` without a trailing newline yields
`needs_rewrite = true`; parsing `cs ++ ":" ++ p ++ "\n"` with an uppercase
hex digit in `cs` yields `needs_rewrite = true`; and parsing the canonical
form with no uppercase hex (and no other surrounding whitespace) yields
`needs_rewrite = false`. -/
theorem c6_needs_rewrite_cases :
    (∀ (cs p : List Char) (commit : GitCommitHash) (d : Char),
       commitHashFromStr cs = .ok commit → cs.all isHexChar = true →
       cs ≠ [] → p ≠ [] → '\n' ∉ p → '\\' ∉ p →
       findNonNormalComponent p = none →
       p.getLast? = some d → rustIsWhitespace d = false →
       GitStub.fromStr (cs ++ ':' :: p) = .ok ⟨commit, p, true⟩) ∧
    (∀ (cs p : List Char) (commit : GitCommitHash) (d : Char),
       commitHashFromStr cs = .ok commit → cs.all isHexChar = true →
       cs ≠ [] → p ≠ [] → '\n' ∉ p → '\\' ∉ p →
       findNonNormalComponent p = none →
       p.getLast? = some d → rustIsWhitespace d = false →
       cs.any isAsciiUppercase = true →
       GitStub.fromStr (cs ++ ':' :: (p ++ ['\n'])) = .ok ⟨commit, p, true⟩) ∧
    (∀ (cs p : List Char) (commit : GitCommitHash) (d : Char),
       commitHashFromStr cs = .ok commit → cs.all isHexChar = true →
       cs ≠ [] → p ≠ [] → '\n' ∉ p → '\\' ∉ p →
       findNonNormalComponent p = none →
       p.getLast? = some d → rustIsWhitespace d = false →
       cs.any isAsciiUppercase = false →
       GitStub.fromStr (cs ++ ':' :: (p ++ ['\n'])) = .ok ⟨commit, p, false⟩) := by
  refine ⟨?_, ?_, ?_⟩
  · intro cs p commit d hparse hhex hcs0 hp0 hnl hbs hfind hlast hd
    rw [fromStr_clean_no_newline hparse hhex hcs0 hp0 hlast hd,
      gitStubNew_ok hp0 hnl hbs hfind]
  · intro cs p commit d hparse hhex hcs0 hp0 hnl hbs hfind hlast hd hupper
    rw [fromStr_clean_newline hparse hhex hcs0 hp0 hlast hd,
      gitStubNew_ok hp0 hnl hbs hfind]
    simp [hupper]
  · intro cs p commit d hparse hhex hcs0 hp0 hnl hbs hfind hlast hd hupper
    rw [fromStr_clean_newline hparse hhex hcs0 hp0 hlast hd,
      gitStubNew_ok hp0 hnl hbs hfind]
    simp [hupper]

/-- C6 witness: the three canonicality cases at concrete inputs (lowercase
hex without newline, uppercase hex with newline, lowercase hex with
newline). -/
theorem c6_needs_rewrite_cases_witness :
    GitStub.fromStr ("0123456789abcdef0123456789abcdef01234567".data ++ ':' ::
        "path/to/file.json".data)
      = .ok ⟨sampleStub.commit, "path/to/file.json".data, true⟩ ∧
    GitStub.fromStr ("0123456789ABCDEF0123456789ABCDEF01234567".data ++ ':' ::
        ("path/to/file.json".data ++ ['\n']))
      = .ok ⟨sampleStub.commit, "path/to/file.json".data, true⟩ ∧
    GitStub.fromStr ("0123456789abcdef0123456789abcdef01234567".data ++ ':' ::
        ("path/to/file.json".data ++ ['\n']))
      = .ok ⟨sampleStub.commit, "path/to/file.json".data, false⟩ := by
  refine ⟨?_, ?_, ?_⟩
  · exact c6_needs_rewrite_cases.1
      "0123456789abcdef0123456789abcdef01234567".data
      "path/to/file.json".data sampleStub.commit 'n'
      (by decide) (by decide) (by decide) (by decide) (by decide) (by decide)
      (by decide) (by decide) (by decide)
  · exact c6_needs_rewrite_cases.2.1
      "0123456789ABCDEF0123456789ABCDEF01234567".data
      "path/to/file.json".data sampleStub.commit 'n'
      (by decide) (by decide) (by decide) (by decide) (by decide) (by decide)
      (by decide) (by decide) (by decide) (by decide)
  · exact c6_needs_rewrite_cases.2.2
      "0123456789abcdef0123456789abcdef01234567".data
      "path/to/file.json".data sampleStub.commit 'n'
      (by decide) (by decide) (by decide) (by decide) (by decide) (by decide)
      (by decide) (by decide) (by decide) (by decide)

end GitStubSpec
